import Mathlib

/-!
Verification development for the unicon-engine execution core.

The definitions below are a shallow embedding of the two source files:
  - unicon_runner/executor/base.py   (working-directory lease, file staging,
    exit-code classification, result merge)
  - unicon_runner/runner/task/programming.py   (program validation, concurrent
    batch runner)
The filesystem is modelled as a pair of path-indexed maps (directories and
files), and the asyncio task group is modelled by processing the per-program
tasks in an arbitrary completion order given as a permutation of the indices.
-/

namespace UniconRunner

/-- Paths are lists of components, as produced by pathlib joins. -/
abbrev Path := List String

/-- Dictionary values appearing in pydantic model bags: strings, integers and
the Python None value. -/
inductive Val where
  | s (v : String)
  | i (v : Int)
  | null
  deriving DecidableEq

/-- A Python dict is modelled as an association list with setitem semantics:
dictSet replaces the value of an existing key in place and appends otherwise. -/
abbrev Dict := List (String × Val)

/-- Python dict setitem: replace in place when the key is present, append
otherwise. -/
def dictSet (d : Dict) (k : String) (v : Val) : Dict :=
  if d.any (fun p => decide (p.1 = k)) then
    d.map (fun p => if p.1 = k then (k, v) else p)
  else
    d ++ [(k, v)]

/-- Python dict lookup (first entry with the key; keys of a real dict are
pairwise distinct). -/
def dictGet (d : Dict) (k : String) : Option Val :=
  (d.find? (fun p => decide (p.1 = k))).map (fun p => p.2)

/-- Keys of a dict are pairwise distinct, as in a real Python dict. -/
def dictKeysNodup (d : Dict) : Prop := (d.map Prod.fst).Nodup

instance (d : Dict) : Decidable (dictKeysNodup d) := by
  unfold dictKeysNodup; infer_instance

/-- Remove the given keys from a dict (used to model the extra fields kept by a
pydantic model with extra allowed, after the declared fields are consumed). -/
def dictRemoveKeys (d : Dict) (ks : List String) : Dict :=
  d.filter (fun p => decide (p.1 ∉ ks))

/-- Python dict merge of two dicts as in a double-star dict literal: entries of
the second dict are set one by one over the first, so the second dict wins on
key collision. -/
def mergeDict (a b : Dict) : Dict :=
  b.foldl (fun d kv => dictSet d kv.1 kv.2) a

/-! ### Status and the exit-code classifier (executor/base.py) -/

/-- Status enum from executor/base.py. -/
inductive Status where
  | OK
  | MLE
  | TLE
  | RTE
  | WA
  deriving DecidableEq

/-- The string value carried by each Status enum member. -/
def Status.value : Status → String
  | .OK => "OK"
  | .MLE => "MLE"
  | .TLE => "TLE"
  | .RTE => "RTE"
  | .WA => "WA"

/-- Inverse of Status.value, as used by pydantic validation of a status
string. -/
def statusFromString (s : String) : Option Status :=
  if s = "OK" then some .OK
  else if s = "MLE" then some .MLE
  else if s = "TLE" then some .TLE
  else if s = "RTE" then some .RTE
  else if s = "WA" then some .WA
  else none

/-- The match on result.exit_code inside Executor.run: 137 to MLE, 124 to TLE,
1 to RTE, anything else to OK. -/
def classify (exit_code : Int) : Status :=
  if exit_code = 137 then .MLE
  else if exit_code = 124 then .TLE
  else if exit_code = 1 then .RTE
  else .OK

/-! ### Filesystem model -/

/-- The boolean test that a directory path d is an ancestor-or-self of path q,
component by component. -/
def isUnder : Path → Path → Bool
  | [], _ => true
  | _ :: _, [] => false
  | a :: as, b :: bs => decide (a = b) && isUnder as bs

/-- A filesystem state: which directories exist, and for each file path its
content and permission mode bits. -/
structure FS where
  dirs : Path → Bool
  files : Path → Option (String × Nat)

/-- The empty filesystem. -/
def FS.empty : FS := ⟨fun _ => false, fun _ => none⟩

/-- Whether a directory exists. -/
def dirExists (fs : FS) (p : Path) : Prop := fs.dirs p = true

instance (fs : FS) (p : Path) : Decidable (dirExists fs p) := by
  unfold dirExists; infer_instance

/-- The content and mode of a file, when it exists. -/
def getFile (fs : FS) (p : Path) : Option (String × Nat) := fs.files p

/-- The mode bits of a file, when it exists. -/
def getMode (fs : FS) (p : Path) : Option Nat := (fs.files p).map Prod.snd

/-- All nonempty initial segments of a path: the chain of directories that
mkdir with parents enabled brings into existence. -/
def ancestors (p : Path) : List Path :=
  (List.range p.length).map (fun k => p.take (k + 1))

/-- Filesystem error raised by a directory operation. -/
inductive FsErr where
  | fileExistsErr
  deriving DecidableEq

/-- pathlib mkdir with parents enabled and exist_ok disabled: raises
FileExistsError when the target itself already exists, otherwise creates the
target and every missing ancestor. -/
def mkdirParents (fs : FS) (p : Path) : Except FsErr FS :=
  if fs.dirs p then .error .fileExistsErr
  else .ok { fs with dirs := fun q => if q ∈ ancestors p then true else fs.dirs q }

/-- pathlib mkdir with parents and exist_ok both enabled, used for the parent
directory of each staged file. -/
def mkdirParentsExistOk (fs : FS) (p : Path) : FS :=
  { fs with dirs := fun q => if q ∈ ancestors p then true else fs.dirs q }

/-- Default mode bits of a file freshly created by write_text (0o644). -/
def defaultFileMode : Nat := 420

/-- pathlib write_text: create or truncate the file; the mode bits of an
existing file are preserved, a fresh file gets the default mode. -/
def writeText (fs : FS) (p : Path) (c : String) : FS :=
  { fs with
    files := fun q =>
      if q = p then
        some (c, match fs.files p with | some e => e.2 | none => defaultFileMode)
      else fs.files q }

/-- The value of the S_IEXEC permission bit (0o100). -/
def S_IEXEC : Nat := 64

/-- The chmod call in Executor.run: set the file mode to its current mode bits
bitwise-or the execute bit. -/
def chmodExec (fs : FS) (p : Path) : FS :=
  { fs with
    files := fun q =>
      if q = p then (fs.files p).map (fun e => (e.1, e.2 ||| S_IEXEC))
      else fs.files q }

/-- shutil.rmtree: recursively remove a directory and everything under it. -/
def rmtree (fs : FS) (p : Path) : FS :=
  { dirs := fun q => if isUnder p q then false else fs.dirs q,
    files := fun q => if isUnder p q then none else fs.files q }

/-! ### ExecutorCwd, staging and Executor.run (executor/base.py) -/

/-- ExecutorCwd construction: cwd is root_dir joined with id, and mkdir with
parents enabled (exist_ok disabled) is performed at once. -/
def ExecutorCwd.init (fs : FS) (root_dir : Path) (id : String) :
    Except FsErr (Path × FS) :=
  match mkdirParents fs (root_dir ++ [id]) with
  | .error e => .error e
  | .ok fs1 => .ok (root_dir ++ [id], fs1)

/-- ExecutorCwd scope exit: recursive removal of the leased directory. -/
def ExecutorCwd.exit (fs : FS) (cwd : Path) : FS := rmtree fs cwd

/-- One entry of a FileSystemMapping: relative path, content, executable
flag. -/
abbrev FsEntry := Path × String × Bool

/-- Materialization of a single filesystem-mapping entry inside Executor.run:
create the parent directories, write the content, and add the execute bit when
the executable flag is set. -/
def materializeEntry (cwd : Path) (fs : FS) (e : FsEntry) : FS :=
  let file_path := cwd ++ e.1
  let fs1 := mkdirParentsExistOk fs file_path.dropLast
  let fs2 := writeText fs1 file_path e.2.1
  if e.2.2 then chmodExec fs2 file_path else fs2

/-- The staging loop of Executor.run over the whole filesystem mapping. -/
def materialize (cwd : Path) (entries : List FsEntry) (fs : FS) : FS :=
  entries.foldl (materializeEntry cwd) fs

/-- Raw execution result returned by a backend (executor/base.py
ExecutorResult). -/
structure ExecutorResult where
  exit_code : Int
  stdout : String
  stderr : String
  deriving DecidableEq

/-- A concrete executor backend: the two abstract operations of the Executor
contract. get_filesystem_mapping is the staged file list and _execute is the
backend raw-run operation, which may fail with a backend error of type ε and
may change the filesystem. -/
structure Backend (ε : Type) where
  get_filesystem_mapping : List FsEntry
  _execute : Path → FS → (Except ε ExecutorResult) × FS

/-- ProgramResult from executor/base.py: the three declared fields plus the
extra fields kept because the model allows extras. -/
structure ProgramResult where
  stdout : Option String
  stderr : Option String
  status : Option Status
  extras : Dict
  deriving DecidableEq

/-- Decode a dict value into an optional string field (str or None). -/
def decodeOptStr : Val → Option (Option String)
  | .s v => some (some v)
  | .null => some none
  | .i _ => none

/-- Decode a dict value into an optional Status field (Status or None). -/
def decodeOptStatus : Val → Option (Option Status)
  | .s v => (statusFromString v).map some
  | .null => some none
  | .i _ => none

/-- ProgramResult.model_validate on a dict: the declared fields stdout, stderr
and status must be present and well typed; every other entry is kept as an
extra field. -/
def ProgramResult.model_validate (d : Dict) : Option ProgramResult :=
  match dictGet d "stdout", dictGet d "stderr", dictGet d "status" with
  | some vo, some ve, some vs =>
    match decodeOptStr vo, decodeOptStr ve, decodeOptStatus vs with
    | some o, some e, some st =>
      some ⟨o, e, st, dictRemoveKeys d ["stdout", "stderr", "status"]⟩
    | _, _, _ => none
  | _, _, _ => none

/-- The dict literal built at the end of Executor.run: the tracking fields,
then status, stdout and stderr set over them. -/
def mkResultDict (tracking : Dict) (st : Status) (r : ExecutorResult) : Dict :=
  dictSet (dictSet (dictSet tracking "status" (.s st.value))
    "stdout" (.s r.stdout)) "stderr" (.s r.stderr)

/-- The merge-and-validate step at the end of Executor.run. -/
def mergeProgramResult (tracking : Dict) (st : Status) (r : ExecutorResult) :
    Option ProgramResult :=
  ProgramResult.model_validate (mkResultDict tracking st r)

/-- Errors with which Executor.run can fail: a filesystem error from the lease,
a backend error from _execute, or a validation error from the final merge. -/
inductive RunErr (ε : Type) where
  | fsErr (e : FsErr)
  | infra (e : ε)
  | validation
  deriving DecidableEq

/-- Executor.run from executor/base.py: acquire the working-directory lease,
materialize the filesystem mapping, invoke the backend, release the lease on
every exit path of the with block, classify the exit code and merge the result
with the tracking fields. tracking is program.model_extra and id the fresh
uuid. -/
def Executor.run {ε : Type} (B : Backend ε) (tracking : Dict) (root_dir : Path)
    (id : String) (fs : FS) : (Except (RunErr ε) ProgramResult) × FS :=
  match ExecutorCwd.init fs root_dir id with
  | .error e => (.error (.fsErr e), fs)
  | .ok (cwd, fs1) =>
    let fs2 := materialize cwd B.get_filesystem_mapping fs1
    match B._execute cwd fs2 with
    | (.error e, fs3) => (.error (.infra e), ExecutorCwd.exit fs3 cwd)
    | (.ok result, fs3) =>
      let fs4 := ExecutorCwd.exit fs3 cwd
      match mergeProgramResult tracking (classify result.exit_code) result with
      | some pr => (.ok pr, fs4)
      | none => (.error .validation, fs4)

/-! ### Program validation and the batch runner (runner/task/programming.py) -/

/-- Modelled from the spec: the File shape from unicon_runner.schemas is not
under src; per the spec each file is a (file name, content) pair, and the
validator in programming.py reads the field file_name. -/
structure File where
  file_name : String
  content : String
  deriving DecidableEq

/-- Program from programming.py: entrypoint, files, and the open-ended bag of
extra tracking fields kept because the model allows extras. -/
structure Program where
  entrypoint : String
  files : List File
  extras : Dict
  deriving DecidableEq

/-- The model validator check_entrypoint_exists_in_files run at Program
construction: raise a ValueError unless some file of the program has the
entrypoint as its file name. -/
def Program.check_entrypoint_exists_in_files (p : Program) :
    Except String Program :=
  if p.files.any (fun file => decide (file.file_name = p.entrypoint)) then .ok p
  else .error ("Entrypoint " ++ p.entrypoint ++ " not found in RunnerPackage files")

/-- A placeholder program used only as the default of a total list lookup; all
theorems restrict the index to the list length. -/
def Program.placeholder : Program := ⟨"", [], []⟩

/-- Modelled from the spec: the Request shape from unicon_runner.schemas is not
under src; programming.py builds it from the dumped program fields plus the
shared environment, with the environment descriptor kept opaque (type α). -/
structure Request (α : Type) where
  entrypoint : String
  files : List File
  extras : Dict
  environment : α

/-- Modelled from the spec: TaskEvalStatus from unicon_runner.schemas is not
under src; the batch runner only ever assigns the success value. -/
inductive TaskEvalStatus where
  | SUCCESS
  deriving DecidableEq

/-- Modelled from the spec: TaskEvalResult from unicon_runner.schemas is not
under src; per the spec a batch result is the submission identifier, the
overall status and the result payload. -/
structure TaskEvalResult (R : Type) where
  submission_id : String
  status : TaskEvalStatus
  result : R
  deriving DecidableEq

/-- The Request construction inside run_program: the dumped program fields
plus the shared environment. -/
def mkRequest {α : Type} (program : Program) (environment : α) : Request α :=
  ⟨program.entrypoint, program.files, program.extras, environment⟩

/-- Programs.run_program from programming.py: build the request from the dumped
program plus the environment, call the backend run_request, and merge the
program extra tracking fields with the dumped backend result, the backend
result winning on key collision. Modelled from the spec: run_request and the
ExecutorResult of the variants module are not under src; per the spec the
backend result dump is an open dict carrying status, stdout and stderr, and
validating the merged dict keeps every key, so the result of a task is the
merged dict itself. -/
def Programs.run_program {α E : Type} (run_request : Request α → Except E Dict)
    (environment : α) (program : Program) : Except E Dict :=
  match run_request (mkRequest program environment) with
  | .error e => .error e
  | .ok resultDump => .ok (mergeDict program.extras resultDump)

/-- The asyncio task group of Programs.run, linearized by the completion order
of the tasks: each completed task records its indexed result; the first task
that raises makes the group cancel the remaining tasks and fail with that
error, discarding the recorded results. -/
def taskGroupRun {E R : Type} (task : Nat → Except E R) :
    List Nat → List (Nat × R) → Except E (List (Nat × R))
  | [], acc => .ok acc
  | i :: rest, acc =>
    match task i with
    | .error e => .error e
    | .ok r => taskGroupRun task rest (acc ++ [(i, r)])

/-- Lookup of an index in the results_with_index dict. -/
def dictGetNat {R : Type} (d : List (Nat × R)) (i : Nat) : Option R :=
  (d.find? (fun p => decide (p.1 = i))).map (fun p => p.2)

/-- The list comprehension over range of the dict length at the end of
Programs.run; a missing key is a KeyError. -/
def collectResults {R : Type} (d : List (Nat × R)) : Option (List R) :=
  (List.range d.length).mapM (fun i => dictGetNat d i)

/-- Errors with which Programs.run can fail: the aggregate error of the task
group holding the first task error, or a KeyError from the final
comprehension. -/
inductive BatchErr (E : Type) where
  | aggregate (e : E)
  | keyErr
  deriving DecidableEq

/-- Programs.run from programming.py: run every program through run_program in
one task group, indexed by position; completionOrder is the order in which the
concurrent tasks finish, a permutation of the indices. On success the results
are read back in index order and wrapped in a successful TaskEvalResult. -/
def Programs.run {α E : Type} (run_request : Request α → Except E Dict)
    (submission_id : String) (environment : α) (programs : List Program)
    (completionOrder : List Nat) :
    Except (BatchErr E) (TaskEvalResult (List Dict)) :=
  match taskGroupRun
      (fun i => Programs.run_program run_request environment
        (programs.getD i Program.placeholder))
      completionOrder [] with
  | .error e => .error (.aggregate e)
  | .ok results_with_index =>
    match collectResults results_with_index with
    | none => .error .keyErr
    | some results =>
      .ok ⟨submission_id, .SUCCESS, results⟩

/-- Whether an Except value is a normal return. -/
def isOkB {E R : Type} : Except E R → Bool
  | .ok _ => true
  | .error _ => false

/-- The value of a successfully completed per-program task, used to name the
results of an all-successful batch. -/
def taskResult {α E : Type} (run_request : Request α → Except E Dict)
    (environment : α) (ps : List Program) (i : Nat) : Dict :=
  match Programs.run_program run_request environment (ps.getD i Program.placeholder) with
  | .ok d => d
  | .error _ => []

/-! ### Dictionary lemmas -/

theorem find?_set_map (k : String) (v : Val) :
    ∀ d : Dict, d.any (fun p => decide (p.1 = k)) = true →
      (d.map (fun p => if p.1 = k then (k, v) else p)).find?
        (fun p => decide (p.1 = k)) = some (k, v)
  | [], h => by simp at h
  | hd :: tl, h => by
    by_cases hh : hd.1 = k
    · simp [hh]
    · have h2 : tl.any (fun p => decide (p.1 = k)) = true := by
        simpa [List.any_cons, hh] using h
      simpa [hh] using find?_set_map k v tl h2

theorem find?_set_map_other (k k2 : String) (v : Val) (hne : k2 ≠ k) :
    ∀ d : Dict,
      (d.map (fun p => if p.1 = k then (k, v) else p)).find?
        (fun p => decide (p.1 = k2)) = d.find? (fun p => decide (p.1 = k2))
  | [] => rfl
  | hd :: tl => by
    by_cases hh : hd.1 = k
    · have h3 : ¬ (hd.1 = k2) := by rw [hh]; exact fun he => hne he.symm
      have h4 : ¬ ((k : String) = k2) := fun he => hne he.symm
      simp only [List.map_cons, if_pos hh, List.find?, decide_eq_false h4,
        decide_eq_false h3]
      exact find?_set_map_other k k2 v hne tl
    · by_cases hk2 : hd.1 = k2
      · simp only [List.map_cons, if_neg hh, List.find?, decide_eq_true hk2]
      · simp only [List.map_cons, if_neg hh, List.find?, decide_eq_false hk2]
        exact find?_set_map_other k k2 v hne tl

theorem find?_none_of_not_any (k : String) :
    ∀ d : Dict, ¬ (d.any (fun p => decide (p.1 = k)) = true) →
      d.find? (fun p => decide (p.1 = k)) = none
  | [], _ => rfl
  | hd :: tl, h => by
    have hh : ¬ (hd.1 = k) := fun he => h (by simp [List.any_cons, he])
    have h2 : ¬ (tl.any (fun p => decide (p.1 = k)) = true) := fun ht =>
      h (by simp [List.any_cons, ht])
    simp only [List.find?, decide_eq_false hh]
    exact find?_none_of_not_any k tl h2

theorem dictGet_dictSet_same (d : Dict) (k : String) (v : Val) :
    dictGet (dictSet d k v) k = some v := by
  unfold dictGet dictSet
  by_cases h : d.any (fun p => decide (p.1 = k)) = true
  · rw [if_pos h, find?_set_map k v d h]
    rfl
  · rw [if_neg h, List.find?_append, find?_none_of_not_any k d h]
    simp [List.find?]

theorem dictGet_dictSet_other (d : Dict) (k k2 : String) (v : Val)
    (hne : k2 ≠ k) : dictGet (dictSet d k v) k2 = dictGet d k2 := by
  unfold dictGet dictSet
  by_cases h : d.any (fun p => decide (p.1 = k)) = true
  · rw [if_pos h, find?_set_map_other k k2 v hne d]
  · rw [if_neg h, List.find?_append]
    have h4 : ¬ ((k : String) = k2) := fun he => hne he.symm
    have hlast : (([(k, v)] : Dict).find? (fun p => decide (p.1 = k2))) = none := by
      simp only [List.find?, decide_eq_false h4]
    cases hd : d.find? (fun p => decide (p.1 = k2)) with
    | none => simp [hlast]
    | some x => simp

theorem find?_filter_keys (ks : List String) (k : String) (hk : k ∉ ks) :
    ∀ d : Dict,
      (d.filter (fun p => decide (p.1 ∉ ks))).find? (fun p => decide (p.1 = k)) =
        d.find? (fun p => decide (p.1 = k))
  | [] => rfl
  | hd :: tl => by
    by_cases hmem : hd.1 ∈ ks
    · have hne : ¬ (hd.1 = k) := fun he => hk (he ▸ hmem)
      rw [List.filter_cons, if_neg (by simpa using hmem)]
      rw [find?_filter_keys ks k hk tl]
      simp only [List.find?, decide_eq_false hne]
    · by_cases hk2 : hd.1 = k
      · rw [List.filter_cons, if_pos (by simpa using hmem)]
        simp only [List.find?, decide_eq_true hk2]
      · rw [List.filter_cons, if_pos (by simpa using hmem)]
        simp only [List.find?, decide_eq_false hk2]
        exact find?_filter_keys ks k hk tl

theorem dictGet_removeKeys (d : Dict) (ks : List String) (k : String)
    (hk : k ∉ ks) : dictGet (dictRemoveKeys d ks) k = dictGet d k := by
  unfold dictGet dictRemoveKeys
  rw [find?_filter_keys ks k hk d]

theorem dictGet_of_mem :
    ∀ (d : Dict) (k : String) (v : Val),
      dictKeysNodup d → (k, v) ∈ d → dictGet d k = some v
  | [], _, _, _, hm => by simp at hm
  | hd :: tl, k, v, hnd, hm => by
    have hnd3 : (hd.1 :: List.map Prod.fst tl).Nodup := hnd
    obtain ⟨hnotmem, hnd2⟩ := List.nodup_cons.mp hnd3
    rcases List.mem_cons.mp hm with he | htl
    · unfold dictGet
      rw [← he]
      simp [List.find?]
    · have hkey : k ∈ tl.map Prod.fst := List.mem_map.mpr ⟨(k, v), htl, rfl⟩
      have hne : ¬ (hd.1 = k) := fun he => hnotmem (he ▸ hkey)
      unfold dictGet
      simp only [List.find?, decide_eq_false hne]
      exact dictGet_of_mem tl k v hnd2 htl

/-! ### Classifier and merge lemmas -/

theorem statusFromString_value (st : Status) :
    statusFromString st.value = some st := by
  cases st <;> rfl

theorem classify_ne_wa (e : Int) : classify e ≠ Status.WA := by
  unfold classify
  split
  · simp
  · split
    · simp
    · split <;> simp

theorem mkResultDict_stdout (t : Dict) (st : Status) (r : ExecutorResult) :
    dictGet (mkResultDict t st r) "stdout" = some (.s r.stdout) := by
  unfold mkResultDict
  rw [dictGet_dictSet_other _ _ _ _ (by decide), dictGet_dictSet_same]

theorem mkResultDict_stderr (t : Dict) (st : Status) (r : ExecutorResult) :
    dictGet (mkResultDict t st r) "stderr" = some (.s r.stderr) := by
  unfold mkResultDict
  rw [dictGet_dictSet_same]

theorem mkResultDict_status (t : Dict) (st : Status) (r : ExecutorResult) :
    dictGet (mkResultDict t st r) "status" = some (.s st.value) := by
  unfold mkResultDict
  rw [dictGet_dictSet_other _ _ _ _ (by decide),
    dictGet_dictSet_other _ _ _ _ (by decide), dictGet_dictSet_same]

theorem mkResultDict_tracking (t : Dict) (st : Status) (r : ExecutorResult)
    (k : String) (hk : k ∉ ["status", "stdout", "stderr"]) :
    dictGet (mkResultDict t st r) k = dictGet t k := by
  simp only [List.mem_cons, List.not_mem_nil, or_false, not_or] at hk
  unfold mkResultDict
  rw [dictGet_dictSet_other _ _ _ _ hk.2.2, dictGet_dictSet_other _ _ _ _ hk.2.1,
    dictGet_dictSet_other _ _ _ _ hk.1]

theorem mergeProgramResult_eq (t : Dict) (st : Status) (r : ExecutorResult) :
    mergeProgramResult t st r =
      some ⟨some r.stdout, some r.stderr, some st,
        dictRemoveKeys (mkResultDict t st r) ["stdout", "stderr", "status"]⟩ := by
  unfold mergeProgramResult ProgramResult.model_validate
  rw [mkResultDict_stdout, mkResultDict_stderr, mkResultDict_status]
  simp [decodeOptStr, decodeOptStatus, statusFromString_value]

/-! ### Filesystem lemmas -/

theorem rmtree_wipes (fs : FS) (p q : Path) (h : isUnder p q = true) :
    (rmtree fs p).dirs q = false ∧ (rmtree fs p).files q = none := by
  simp [rmtree, h]

theorem self_mem_ancestors (p : Path) (hp : p ≠ []) : p ∈ ancestors p := by
  unfold ancestors
  refine List.mem_map.mpr ⟨p.length - 1, ?_, ?_⟩
  · have := List.length_pos.mpr hp
    exact List.mem_range.mpr (by omega)
  · have hlen : p.length - 1 + 1 = p.length :=
      Nat.succ_pred_eq_of_pos (List.length_pos.mpr hp)
    rw [hlen, List.take_length]

theorem run_snd_eq {ε : Type} (B : Backend ε) (tracking : Dict) (root_dir : Path)
    (id : String) (fs fs1 : FS)
    (hinit : ExecutorCwd.init fs root_dir id = .ok (root_dir ++ [id], fs1)) :
    (Executor.run B tracking root_dir id fs).2 =
      rmtree (B._execute (root_dir ++ [id])
        (materialize (root_dir ++ [id]) B.get_filesystem_mapping fs1)).2
        (root_dir ++ [id]) := by
  unfold Executor.run
  rw [hinit]
  dsimp only
  cases hexec : B._execute (root_dir ++ [id])
      (materialize (root_dir ++ [id]) B.get_filesystem_mapping fs1) with
  | mk r fs3 =>
    cases r with
    | error e => rfl
    | ok result =>
      dsimp only
      rw [mergeProgramResult_eq]
      rfl

theorem init_ok_shape (fs : FS) (root_dir : Path) (id : String) (x : Path × FS)
    (hinit : ExecutorCwd.init fs root_dir id = .ok x) :
    x.1 = root_dir ++ [id] := by
  unfold ExecutorCwd.init at hinit
  cases hmk : mkdirParents fs (root_dir ++ [id]) with
  | error e => rw [hmk] at hinit; exact absurd hinit (by simp)
  | ok fs2 =>
    rw [hmk] at hinit
    simp only [Except.ok.injEq] at hinit
    rw [← hinit]

/-- C1: if the working-directory lease is acquired during Executor.run, then
however the run ends (normal return or a raising backend), the leased directory
root_dir/id and everything under it no longer exist on the filesystem returned
by the run: the recursive removal of the scope exit runs on every exit path. -/
theorem run_cleanup {ε : Type} (B : Backend ε) (tracking : Dict) (root_dir : Path)
    (id : String) (fs : FS)
    (hacq : ∃ x, ExecutorCwd.init fs root_dir id = .ok x) :
    ∀ q : Path, isUnder (root_dir ++ [id]) q = true →
      ¬ dirExists (Executor.run B tracking root_dir id fs).2 q ∧
        getFile (Executor.run B tracking root_dir id fs).2 q = none := by
  obtain ⟨x, hinit⟩ := hacq
  have hx1 : x.1 = root_dir ++ [id] := init_ok_shape fs root_dir id x hinit
  have hinit2 : ExecutorCwd.init fs root_dir id = .ok (root_dir ++ [id], x.2) := by
    rw [hinit, ← hx1]
  intro q hq
  rw [run_snd_eq B tracking root_dir id fs x.2 hinit2]
  have hw := rmtree_wipes
    (B._execute (root_dir ++ [id])
      (materialize (root_dir ++ [id]) B.get_filesystem_mapping x.2)).2
    (root_dir ++ [id]) q hq
  constructor
  · intro hd
    rw [dirExists] at hd
    rw [hw.1] at hd
    exact Bool.false_ne_true hd
  · rw [getFile, hw.2]

/-- C1 witness: a backend stub that raises during the raw-run operation still
leaves no trace of the leased working directory temp/run1. -/
theorem run_cleanup_witness :
    ¬ dirExists (Executor.run (⟨[], fun _ s => (.error (), s)⟩ : Backend Unit)
        [] ["temp"] "run1" FS.empty).2 ["temp", "run1"] ∧
      getFile (Executor.run (⟨[], fun _ s => (.error (), s)⟩ : Backend Unit)
        [] ["temp"] "run1" FS.empty).2 ["temp", "run1"] = none :=
  run_cleanup (⟨[], fun _ s => (.error (), s)⟩ : Backend Unit) [] ["temp"] "run1"
    FS.empty ⟨_, rfl⟩ ["temp", "run1"] (by decide)

/-- C8: materializing a filesystem-mapping entry with the executable flag set
gives the file the mode it had after the write with the execute bit added;
every permission bit set before materialization stays set, and the
materialization of the entry does not change the mode of any other file. -/
theorem materialize_entry_mode (cwd : Path) (fs : FS) (rel : Path)
    (content : String) (ex : Bool) :
    (ex = true →
      getMode (materializeEntry cwd fs (rel, content, ex)) (cwd ++ rel) =
        some ((match fs.files (cwd ++ rel) with
          | some e => e.2
          | none => defaultFileMode) ||| S_IEXEC)) ∧
    (∀ m i, getMode fs (cwd ++ rel) = some m → m.testBit i = true →
      ∃ m2, getMode (materializeEntry cwd fs (rel, content, ex)) (cwd ++ rel) =
          some m2 ∧ m2.testBit i = true) ∧
    (∀ q, q ≠ cwd ++ rel →
      getMode (materializeEntry cwd fs (rel, content, ex)) q = getMode fs q) := by
  refine ⟨?_, ?_, ?_⟩
  · intro hex
    subst hex
    cases hf : fs.files (cwd ++ rel) with
    | none =>
      simp [materializeEntry, chmodExec, writeText, mkdirParentsExistOk, getMode, hf]
    | some e =>
      simp [materializeEntry, chmodExec, writeText, mkdirParentsExistOk, getMode, hf]
  · intro m i hm hbit
    cases hf : fs.files (cwd ++ rel) with
    | none => rw [getMode, hf] at hm; exact absurd hm (by simp)
    | some e =>
      have hme : e.2 = m := by
        rw [getMode, hf] at hm
        simpa using hm
      cases ex with
      | true =>
        refine ⟨m ||| S_IEXEC, ?_, ?_⟩
        · simp [materializeEntry, chmodExec, writeText, mkdirParentsExistOk,
            getMode, hf, hme]
        · rw [Nat.testBit_lor, hbit]
          rfl
      | false =>
        refine ⟨m, ?_, hbit⟩
        simp [materializeEntry, writeText, mkdirParentsExistOk, getMode, hf, hme]
  · intro q hq
    cases ex with
    | true =>
      simp [materializeEntry, chmodExec, writeText, mkdirParentsExistOk, getMode, hq]
    | false =>
      simp [materializeEntry, writeText, mkdirParentsExistOk, getMode, hq]

/-- C8 witness: staging an executable entry over a file of mode 420 (octal 644)
yields mode 484 (octal 744); bit 2 set before stays set, and an unrelated path
keeps its mode. -/
theorem materialize_entry_mode_witness :
    getMode (materializeEntry ["temp"] (writeText FS.empty ["temp", "main.sh"] "old")
        (["main.sh"], "new", true)) ["temp", "main.sh"] = some 484 ∧
    (∃ m2, getMode (materializeEntry ["temp"]
        (writeText FS.empty ["temp", "main.sh"] "old")
        (["main.sh"], "new", true)) ["temp", "main.sh"] = some m2 ∧
      m2.testBit 2 = true) ∧
    getMode (materializeEntry ["temp"] (writeText FS.empty ["temp", "main.sh"] "old")
        (["main.sh"], "new", true)) ["other"] =
      getMode (writeText FS.empty ["temp", "main.sh"] "old") ["other"] := by
  refine ⟨?_, ?_, ?_⟩
  · exact (materialize_entry_mode ["temp"]
      (writeText FS.empty ["temp", "main.sh"] "old") ["main.sh"] "new" true).1 rfl
  · exact (materialize_entry_mode ["temp"]
      (writeText FS.empty ["temp", "main.sh"] "old") ["main.sh"] "new" true).2.1
      420 2 (by decide) (by decide)
  · exact (materialize_entry_mode ["temp"]
      (writeText FS.empty ["temp", "main.sh"] "old") ["main.sh"] "new" true).2.2
      ["other"] (by decide)

/-- C10: acquiring the working-directory lease fails with a filesystem error
when root_dir/id already exists, before any file is staged (the filesystem is
returned unchanged by the run); otherwise it creates the directory and all its
missing ancestors; and after a successful acquisition a second lease with the
same root and id cannot be acquired. -/
theorem lease_exclusive (ε : Type) (root_dir : Path) (id : String) (fs : FS) :
    (dirExists fs (root_dir ++ [id]) →
      ExecutorCwd.init fs root_dir id = .error .fileExistsErr ∧
      ∀ (B : Backend ε) (tracking : Dict),
        Executor.run B tracking root_dir id fs =
          (.error (.fsErr .fileExistsErr), fs)) ∧
    (¬ dirExists fs (root_dir ++ [id]) →
      ∃ fs1, ExecutorCwd.init fs root_dir id = .ok (root_dir ++ [id], fs1) ∧
        ∀ q ∈ ancestors (root_dir ++ [id]), dirExists fs1 q) ∧
    (∀ cwd fs1, ExecutorCwd.init fs root_dir id = .ok (cwd, fs1) →
      ExecutorCwd.init fs1 root_dir id = .error .fileExistsErr) := by
  refine ⟨?_, ?_, ?_⟩
  · intro hex
    have hex2 : fs.dirs (root_dir ++ [id]) = true := hex
    have h1 : ExecutorCwd.init fs root_dir id = .error .fileExistsErr := by
      unfold ExecutorCwd.init mkdirParents
      rw [if_pos hex2]
    refine ⟨h1, ?_⟩
    intro B tracking
    unfold Executor.run
    rw [h1]
  · intro hnex
    have hnex2 : ¬ (fs.dirs (root_dir ++ [id]) = true) := hnex
    refine ⟨{ fs with dirs := fun q =>
      if q ∈ ancestors (root_dir ++ [id]) then true else fs.dirs q }, ?_, ?_⟩
    · unfold ExecutorCwd.init mkdirParents
      rw [if_neg hnex2]
    · intro q hq
      show (if q ∈ ancestors (root_dir ++ [id]) then true else fs.dirs q) = true
      rw [if_pos hq]
  · intro cwd fs1 hinit
    unfold ExecutorCwd.init mkdirParents at hinit
    by_cases hex : fs.dirs (root_dir ++ [id]) = true
    · rw [if_pos hex] at hinit
      exact absurd hinit (by simp)
    · rw [if_neg hex] at hinit
      simp only [Except.ok.injEq, Prod.mk.injEq] at hinit
      obtain ⟨hc, hf⟩ := hinit
      have hdir : fs1.dirs (root_dir ++ [id]) = true := by
        rw [← hf]
        show (if (root_dir ++ [id]) ∈ ancestors (root_dir ++ [id]) then true
          else fs.dirs (root_dir ++ [id])) = true
        rw [if_pos (self_mem_ancestors _ (by simp))]
      unfold ExecutorCwd.init mkdirParents
      rw [if_pos hdir]

/-- C10 witness: on an empty filesystem the lease for temp/a is acquired and
creates temp and temp/a; on a filesystem where temp/a exists the acquisition
fails; acquiring twice in a row fails the second time. -/
theorem lease_exclusive_witness :
    ExecutorCwd.init (mkdirParentsExistOk FS.empty ["temp", "a"]) ["temp"] "a" =
      .error .fileExistsErr ∧
    (∃ fs1, ExecutorCwd.init FS.empty ["temp"] "a" = .ok (["temp", "a"], fs1) ∧
      ∀ q ∈ ancestors ["temp", "a"], dirExists fs1 q) ∧
    ExecutorCwd.init { FS.empty with dirs := fun q =>
        if q ∈ (ancestors ["temp", "a"]) then true else FS.empty.dirs q }
      ["temp"] "a" = .error .fileExistsErr := by
  refine ⟨?_, ?_, ?_⟩
  · exact ((lease_exclusive Unit ["temp"] "a"
      (mkdirParentsExistOk FS.empty ["temp", "a"])).1 (by decide)).1
  · exact (lease_exclusive Unit ["temp"] "a" FS.empty).2.1 (by decide)
  · exact (lease_exclusive Unit ["temp"] "a" FS.empty).2.2 ["temp", "a"]
      { FS.empty with dirs := fun q =>
        if q ∈ (ancestors ["temp", "a"]) then true else FS.empty.dirs q } rfl

/-! ### Classifier, validation and merge claims -/

theorem classify_cases (e : Int) :
    classify e = Status.OK ∨ classify e = Status.MLE ∨ classify e = Status.TLE ∨
      classify e = Status.RTE := by
  cases h : classify e with
  | OK => exact Or.inl rfl
  | MLE => exact Or.inr (Or.inl rfl)
  | TLE => exact Or.inr (Or.inr (Or.inl rfl))
  | RTE => exact Or.inr (Or.inr (Or.inr rfl))
  | WA => exact absurd h (classify_ne_wa e)

/-- C2: the exit-status classification inside Executor.run is a total function
of the exit code alone: 137 maps to MLE, 124 to TLE, 1 to RTE, and every other
integer exit code, including 0, maps to OK. -/
theorem exit_code_classification :
    classify 137 = Status.MLE ∧ classify 124 = Status.TLE ∧
      classify 1 = Status.RTE ∧
      ∀ e : Int, e ≠ 137 → e ≠ 124 → e ≠ 1 → classify e = Status.OK := by
  refine ⟨rfl, rfl, rfl, ?_⟩
  intro e h137 h124 h1
  unfold classify
  rw [if_neg h137, if_neg h124, if_neg h1]

/-- C2 witness: exit codes 0, 2 and 255 classify as normal completion. -/
theorem exit_code_classification_witness :
    classify 0 = Status.OK ∧ classify 2 = Status.OK ∧ classify 255 = Status.OK :=
  ⟨exit_code_classification.2.2.2 0 (by decide) (by decide) (by decide),
   exit_code_classification.2.2.2 2 (by decide) (by decide) (by decide),
   exit_code_classification.2.2.2 255 (by decide) (by decide) (by decide)⟩

/-- C6: Program construction fails with a validation error exactly when the
entrypoint equals the file name of no file of the program, and succeeds when
some file carries the entrypoint as its name. -/
theorem program_entrypoint_validation (p : Program) :
    ((∃ err, Program.check_entrypoint_exists_in_files p = .error err) ↔
      ∀ f ∈ p.files, f.file_name ≠ p.entrypoint) ∧
    ((∃ f ∈ p.files, f.file_name = p.entrypoint) →
      Program.check_entrypoint_exists_in_files p = .ok p) := by
  constructor
  · constructor
    · rintro ⟨err, he⟩ f hf hfe
      have hany : p.files.any (fun file => decide (file.file_name = p.entrypoint)) = true :=
        List.any_eq_true.mpr ⟨f, hf, by simp [hfe]⟩
      unfold Program.check_entrypoint_exists_in_files at he
      rw [if_pos hany] at he
      exact absurd he (by simp)
    · intro hall
      have hany : ¬ (p.files.any (fun file => decide (file.file_name = p.entrypoint)) = true) := by
        intro h
        rcases List.any_eq_true.mp h with ⟨f, hf, hfe⟩
        exact hall f hf (by simpa using hfe)
      refine ⟨"Entrypoint " ++ p.entrypoint ++ " not found in RunnerPackage files", ?_⟩
      unfold Program.check_entrypoint_exists_in_files
      rw [if_neg hany]
  · rintro ⟨f, hf, hfe⟩
    have hany : p.files.any (fun file => decide (file.file_name = p.entrypoint)) = true :=
      List.any_eq_true.mpr ⟨f, hf, by simp [hfe]⟩
    unfold Program.check_entrypoint_exists_in_files
    rw [if_pos hany]

/-- C6 witness: a program whose entrypoint names one of its files validates,
and one whose entrypoint names none of them is rejected. -/
theorem program_entrypoint_validation_witness :
    Program.check_entrypoint_exists_in_files ⟨"main.py", [⟨"main.py", "x"⟩], []⟩ =
      .ok ⟨"main.py", [⟨"main.py", "x"⟩], []⟩ ∧
    (∃ err, Program.check_entrypoint_exists_in_files
      ⟨"main.py", [⟨"other.py", "x"⟩], []⟩ = .error err) :=
  ⟨(program_entrypoint_validation ⟨"main.py", [⟨"main.py", "x"⟩], []⟩).2
      ⟨⟨"main.py", "x"⟩, by simp, rfl⟩,
   (program_entrypoint_validation ⟨"main.py", [⟨"other.py", "x"⟩], []⟩).1.2
      (by intro f hf; simp at hf; simp [hf])⟩

/-- C5: the ProgramResult returned by a successful Executor.run carries every
caller-supplied tracking field with its original value, except for the keys
status, stdout and stderr, whose values are the classifier result and the raw
stdout and stderr of the backend result. -/
theorem run_tracking_roundtrip {ε : Type} (B : Backend ε) (tracking : Dict)
    (root_dir : Path) (id : String) (fs : FS) (pr : ProgramResult)
    (hnd : dictKeysNodup tracking)
    (h : (Executor.run B tracking root_dir id fs).1 = .ok pr) :
    ∃ r : ExecutorResult,
      pr.status = some (classify r.exit_code) ∧
      pr.stdout = some r.stdout ∧ pr.stderr = some r.stderr ∧
      ∀ k v, (k, v) ∈ tracking → k ∉ ["status", "stdout", "stderr"] →
        dictGet pr.extras k = some v := by
  unfold Executor.run at h
  cases hinit : ExecutorCwd.init fs root_dir id with
  | error e =>
    rw [hinit] at h
    exact absurd h (by simp)
  | ok x =>
    obtain ⟨cwd, fs1⟩ := x
    rw [hinit] at h
    dsimp only at h
    cases hexec : B._execute cwd (materialize cwd B.get_filesystem_mapping fs1) with
    | mk r fs3 =>
      rw [hexec] at h
      cases r with
      | error e => exact absurd h (by simp)
      | ok result =>
        dsimp only at h
        rw [mergeProgramResult_eq] at h
        dsimp only at h
        simp only [Except.ok.injEq] at h
        refine ⟨result, ?_, ?_, ?_, ?_⟩
        · rw [← h]
        · rw [← h]
        · rw [← h]
        · intro k v hkv hkne
          rw [← h]
          show dictGet (dictRemoveKeys
            (mkResultDict tracking (classify result.exit_code) result)
            ["stdout", "stderr", "status"]) k = some v
          have hk2 : k ∉ ["stdout", "stderr", "status"] := by
            simp only [List.mem_cons, List.not_mem_nil, or_false, not_or] at hkne ⊢
            exact ⟨hkne.2.1, hkne.2.2, hkne.1⟩
          rw [dictGet_removeKeys _ _ _ hk2,
            mkResultDict_tracking tracking _ result k hkne,
            dictGet_of_mem tracking k v hnd hkv]

/-- C5 witness: a tracking bag with testcase_id 42 and a colliding status key
round-trips, and the derived status wins over the tracking value. -/
theorem run_tracking_roundtrip_witness :
    ∃ r : ExecutorResult,
      (⟨some "out", some "err", some Status.OK,
        [("testcase_id", Val.i 42)]⟩ : ProgramResult).status =
          some (classify r.exit_code) ∧
      (⟨some "out", some "err", some Status.OK,
        [("testcase_id", Val.i 42)]⟩ : ProgramResult).stdout = some r.stdout ∧
      (⟨some "out", some "err", some Status.OK,
        [("testcase_id", Val.i 42)]⟩ : ProgramResult).stderr = some r.stderr ∧
      ∀ k v, (k, v) ∈ ([("testcase_id", Val.i 42), ("status", Val.s "WA")] : Dict) →
        k ∉ ["status", "stdout", "stderr"] →
        dictGet (⟨some "out", some "err", some Status.OK,
          [("testcase_id", Val.i 42)]⟩ : ProgramResult).extras k = some v :=
  run_tracking_roundtrip
    (⟨[], fun _ s => (.ok ⟨0, "out", "err"⟩, s)⟩ : Backend Unit)
    [("testcase_id", Val.i 42), ("status", Val.s "WA")]
    ["temp"] "run1" FS.empty
    ⟨some "out", some "err", some Status.OK, [("testcase_id", Val.i 42)]⟩
    (by decide) rfl

/-- C9: the status of every ProgramResult returned by Executor.run is one of
OK, MLE, TLE or RTE; the wrong-output status WA is never assigned by the
classification in this core. -/
theorem run_never_wrong_output {ε : Type} (B : Backend ε) (tracking : Dict)
    (root_dir : Path) (id : String) (fs : FS) (pr : ProgramResult)
    (h : (Executor.run B tracking root_dir id fs).1 = .ok pr) :
    pr.status ≠ some Status.WA ∧
      ∃ s, pr.status = some s ∧
        (s = Status.OK ∨ s = Status.MLE ∨ s = Status.TLE ∨ s = Status.RTE) := by
  unfold Executor.run at h
  cases hinit : ExecutorCwd.init fs root_dir id with
  | error e =>
    rw [hinit] at h
    exact absurd h (by simp)
  | ok x =>
    obtain ⟨cwd, fs1⟩ := x
    rw [hinit] at h
    dsimp only at h
    cases hexec : B._execute cwd (materialize cwd B.get_filesystem_mapping fs1) with
    | mk r fs3 =>
      rw [hexec] at h
      cases r with
      | error e => exact absurd h (by simp)
      | ok result =>
        dsimp only at h
        rw [mergeProgramResult_eq] at h
        dsimp only at h
        simp only [Except.ok.injEq] at h
        have hst : pr.status = some (classify result.exit_code) := by rw [← h]
        constructor
        · rw [hst]
          intro hwa
          simp only [Option.some.injEq] at hwa
          exact classify_ne_wa result.exit_code hwa
        · exact ⟨classify result.exit_code, hst, classify_cases result.exit_code⟩

/-- C9 witness: a run over a backend stub returning exit code 0 yields a
status that is not WA. -/
theorem run_never_wrong_output_witness :
    (⟨some "", some "", some Status.OK, []⟩ : ProgramResult).status ≠
        some Status.WA ∧
      ∃ s, (⟨some "", some "", some Status.OK, []⟩ : ProgramResult).status =
          some s ∧
        (s = Status.OK ∨ s = Status.MLE ∨ s = Status.TLE ∨ s = Status.RTE) :=
  run_never_wrong_output (⟨[], fun _ s => (.ok ⟨0, "", ""⟩, s)⟩ : Backend Unit)
    [] ["temp"] "run1" FS.empty
    ⟨some "", some "", some Status.OK, []⟩ rfl

/-! ### Batch-runner lemmas -/

theorem taskGroupRun_ok {E R : Type} (task : Nat → Except E R) (f : Nat → R) :
    ∀ (σ : List Nat) (acc : List (Nat × R)),
      (∀ i ∈ σ, task i = .ok (f i)) →
      taskGroupRun task σ acc = .ok (acc ++ σ.map (fun i => (i, f i)))
  | [], acc, _ => by simp [taskGroupRun]
  | i :: rest, acc, h => by
    have hi : task i = .ok (f i) := h i (List.mem_cons_self i rest)
    have hrest : ∀ j ∈ rest, task j = .ok (f j) := fun j hj =>
      h j (List.mem_cons_of_mem i hj)
    simp only [taskGroupRun, hi]
    rw [taskGroupRun_ok task f rest (acc ++ [(i, f i)]) hrest]
    simp

theorem dictGetNat_map_nodup {R : Type} (f : Nat → R) :
    ∀ (σ : List Nat) (i : Nat), σ.Nodup → i ∈ σ →
      dictGetNat (σ.map (fun j => (j, f j))) i = some (f i)
  | [], i, _, hm => by simp at hm
  | j :: rest, i, hnd, hm => by
    obtain ⟨hnotmem, hnd2⟩ := List.nodup_cons.mp hnd
    rcases List.mem_cons.mp hm with he | htl
    · subst he
      unfold dictGetNat
      simp [List.find?]
    · have hne : ¬ (j = i) := fun he => hnotmem (he ▸ htl)
      unfold dictGetNat
      simp only [List.map_cons, List.find?, decide_eq_false hne]
      exact dictGetNat_map_nodup f rest i hnd2 htl

theorem mapM_eq_map {R : Type} (g : Nat → Option R) (f : Nat → R) :
    ∀ l : List Nat, (∀ i ∈ l, g i = some (f i)) → l.mapM g = some (l.map f)
  | [], _ => rfl
  | a :: l, h => by
    have ha : g a = some (f a) := h a (List.mem_cons_self a l)
    have hl : ∀ i ∈ l, g i = some (f i) := fun i hi =>
      h i (List.mem_cons_of_mem a hi)
    have hrec : l.mapM g = some (l.map f) := mapM_eq_map g f l hl
    rw [List.mapM_cons, ha, hrec]
    rfl

theorem collectResults_map {R : Type} (f : Nat → R) (σ : List Nat) (n : Nat)
    (hperm : σ.Perm (List.range n)) :
    collectResults (σ.map (fun i => (i, f i))) = some ((List.range n).map f) := by
  have hnd : σ.Nodup := (List.Perm.nodup_iff hperm).mpr (List.nodup_range n)
  have hlen : σ.length = n := by
    have := hperm.length_eq
    simpa [List.length_range] using this
  unfold collectResults
  rw [List.length_map, hlen]
  apply mapM_eq_map
  intro i hi
  have hin : i ∈ σ := (hperm.mem_iff).mpr hi
  exact dictGetNat_map_nodup f σ i hnd hin

theorem taskResult_spec {α E : Type} (run_request : Request α → Except E Dict)
    (environment : α) (ps : List Program) (i : Nat)
    (h : ∃ d, Programs.run_program run_request environment
      (ps.getD i Program.placeholder) = .ok d) :
    Programs.run_program run_request environment (ps.getD i Program.placeholder) =
      .ok (taskResult run_request environment ps i) := by
  obtain ⟨d, hd⟩ := h
  rw [hd]
  unfold taskResult
  rw [hd]

theorem Programs.run_all_ok {α E : Type} (run_request : Request α → Except E Dict)
    (submission_id : String) (environment : α) (ps : List Program) (σ : List Nat)
    (hperm : σ.Perm (List.range ps.length))
    (hok : ∀ i, i < ps.length →
      Programs.run_program run_request environment (ps.getD i Program.placeholder) =
        .ok (taskResult run_request environment ps i)) :
    Programs.run run_request submission_id environment ps σ =
      .ok ⟨submission_id, .SUCCESS,
        (List.range ps.length).map (taskResult run_request environment ps)⟩ := by
  have htask : ∀ i ∈ σ,
      Programs.run_program run_request environment (ps.getD i Program.placeholder) =
        .ok (taskResult run_request environment ps i) := by
    intro i hi
    have hlt : i < ps.length := by
      have := (hperm.mem_iff).mp hi
      simpa [List.mem_range] using this
    exact hok i hlt
  unfold Programs.run
  rw [taskGroupRun_ok _ (taskResult run_request environment ps) σ [] htask]
  dsimp only
  rw [List.nil_append,
    collectResults_map (taskResult run_request environment ps) σ ps.length hperm]

theorem getD_range_map {R : Type} (f : Nat → R) (n i : Nat) (hi : i < n)
    (dflt : R) : ((List.range n).map f).getD i dflt = f i := by
  rw [List.getD_eq_getElem?_getD, List.getElem?_map, List.getElem?_range hi]
  rfl

theorem mergeDict_get_of_notin (k : String) :
    ∀ b : Dict, k ∉ b.map Prod.fst →
      ∀ a, dictGet (mergeDict a b) k = dictGet a k
  | [], _, a => rfl
  | (k0, v0) :: tl, hk, a => by
    rw [List.map_cons, List.mem_cons] at hk
    push_neg at hk
    show dictGet (mergeDict (dictSet a k0 v0) tl) k = dictGet a k
    rw [mergeDict_get_of_notin k tl hk.2 (dictSet a k0 v0),
      dictGet_dictSet_other a k0 k v0 hk.1]

theorem mergeDict_get_of_mem (k : String) (v : Val) :
    ∀ b : Dict, dictKeysNodup b → (k, v) ∈ b →
      ∀ a, dictGet (mergeDict a b) k = some v
  | [], _, hm, a => by simp at hm
  | (k0, v0) :: tl, hnd, hm, a => by
    have hnd3 : (k0 :: tl.map Prod.fst).Nodup := hnd
    obtain ⟨hnotmem, hnd2⟩ := List.nodup_cons.mp hnd3
    rcases List.mem_cons.mp hm with he | htl
    · have hk : k = k0 := congrArg Prod.fst he
      have hv : v = v0 := congrArg Prod.snd he
      show dictGet (mergeDict (dictSet a k0 v0) tl) k = some v
      have hknot : k ∉ tl.map Prod.fst := by rw [hk]; exact hnotmem
      rw [mergeDict_get_of_notin k tl hknot (dictSet a k0 v0), hk,
        dictGet_dictSet_same a k0 v0, hv]
    · show dictGet (mergeDict (dictSet a k0 v0) tl) k = some v
      exact mergeDict_get_of_mem k v tl hnd2 htl (dictSet a k0 v0)

theorem taskGroupRun_error {E R : Type} (task : Nat → Except E R) :
    ∀ (σ : List Nat) (acc : List (Nat × R)),
      (∃ i ∈ σ, ∃ e, task i = .error e) →
      ∃ e, taskGroupRun task σ acc = .error e
  | [], acc, h => by
    obtain ⟨i, hi, _⟩ := h
    simp at hi
  | i :: rest, acc, h => by
    cases ht : task i with
    | error e => exact ⟨e, by simp only [taskGroupRun, ht]⟩
    | ok r =>
      obtain ⟨j, hj, e, he⟩ := h
      have hjrest : j ∈ rest := by
        rcases List.mem_cons.mp hj with he2 | h2
        · subst he2
          rw [ht] at he
          exact absurd he (by simp)
        · exact h2
      obtain ⟨e2, he2⟩ := taskGroupRun_error task rest (acc ++ [(i, r)])
        ⟨j, hjrest, e, he⟩
      exact ⟨e2, by simp only [taskGroupRun, ht]; exact he2⟩

theorem taskGroupRun_agree {E R : Type} (task task2 : Nat → Except E R) :
    ∀ (σ : List Nat) (acc : List (Nat × R)),
      (∀ i ∈ σ.take ((σ.takeWhile (fun j => isOkB (task j))).length + 1),
        task2 i = task i) →
      taskGroupRun task2 σ acc = taskGroupRun task σ acc
  | [], acc, _ => rfl
  | i :: rest, acc, hagree => by
    have hi : task2 i = task i := hagree i (by
      rw [List.take_succ_cons]
      exact List.mem_cons_self _ _)
    cases ht : task i with
    | error e => simp only [taskGroupRun, hi, ht]
    | ok r =>
      have htw : (i :: rest).takeWhile (fun j => isOkB (task j)) =
          i :: rest.takeWhile (fun j => isOkB (task j)) := by
        rw [List.takeWhile_cons, if_pos (by rw [ht]; rfl)]
      have hagree2 : ∀ j ∈ rest.take
          ((rest.takeWhile (fun j => isOkB (task j))).length + 1),
          task2 j = task j := by
        intro j hj
        apply hagree
        rw [htw, List.length_cons, List.take_succ_cons]
        exact List.mem_cons_of_mem i hj
      simp only [taskGroupRun, hi, ht]
      exact taskGroupRun_agree task task2 rest (acc ++ [(i, r)]) hagree2

/-! ### Batch-runner claims -/

/-- C3: for a batch in which every per-program task completes without an
infrastructure error, Programs.run returns a successful result whose sequence
has one entry per program, and whose entry at index i is the result of running
the program at index i, for every completion order of the concurrent tasks. -/
theorem batch_order_preserved {α E : Type} (run_request : Request α → Except E Dict)
    (submission_id : String) (environment : α) (ps : List Program) (σ : List Nat)
    (hperm : σ.Perm (List.range ps.length))
    (hok : ∀ i, i < ps.length → ∃ d,
      Programs.run_program run_request environment (ps.getD i Program.placeholder) =
        .ok d) :
    ∃ res, Programs.run run_request submission_id environment ps σ = .ok res ∧
      res.status = .SUCCESS ∧
      res.result.length = ps.length ∧
      ∀ i, i < ps.length →
        Programs.run_program run_request environment (ps.getD i Program.placeholder) =
          .ok (res.result.getD i []) := by
  have hok2 : ∀ i, i < ps.length →
      Programs.run_program run_request environment (ps.getD i Program.placeholder) =
        .ok (taskResult run_request environment ps i) := fun i hi =>
    taskResult_spec run_request environment ps i (hok i hi)
  refine ⟨_, Programs.run_all_ok run_request submission_id environment ps σ
    hperm hok2, rfl, ?_, ?_⟩
  · simp [List.length_map, List.length_range]
  · intro i hi
    rw [hok2 i hi]
    rw [getD_range_map (taskResult run_request environment ps) ps.length i hi []]

/-- C3 witness: a two-program batch whose tasks complete out of order (program
1 first) still produces the results in input order with overall success. -/
theorem batch_order_preserved_witness :
    ∃ res, Programs.run
        (fun _ => (.ok [("status", Val.s "OK")] : Except Unit Dict)) "sub1" ()
        [⟨"a.py", [⟨"a.py", "1"⟩], [("testcase_id", Val.i 1)]⟩,
         ⟨"b.py", [⟨"b.py", "2"⟩], [("testcase_id", Val.i 2)]⟩] [1, 0] = .ok res ∧
      res.status = .SUCCESS ∧
      res.result.length =
        ([⟨"a.py", [⟨"a.py", "1"⟩], [("testcase_id", Val.i 1)]⟩,
          ⟨"b.py", [⟨"b.py", "2"⟩], [("testcase_id", Val.i 2)]⟩] : List Program).length ∧
      ∀ i, i < ([⟨"a.py", [⟨"a.py", "1"⟩], [("testcase_id", Val.i 1)]⟩,
          ⟨"b.py", [⟨"b.py", "2"⟩], [("testcase_id", Val.i 2)]⟩] : List Program).length →
        Programs.run_program
          (fun _ => (.ok [("status", Val.s "OK")] : Except Unit Dict)) ()
          (([⟨"a.py", [⟨"a.py", "1"⟩], [("testcase_id", Val.i 1)]⟩,
             ⟨"b.py", [⟨"b.py", "2"⟩], [("testcase_id", Val.i 2)]⟩] : List Program).getD
            i Program.placeholder) = .ok (res.result.getD i []) :=
  batch_order_preserved
    (fun _ => (.ok [("status", Val.s "OK")] : Except Unit Dict)) "sub1" ()
    [⟨"a.py", [⟨"a.py", "1"⟩], [("testcase_id", Val.i 1)]⟩,
     ⟨"b.py", [⟨"b.py", "2"⟩], [("testcase_id", Val.i 2)]⟩] [1, 0]
    (by decide)
    (by
      intro i hi
      match i with
      | 0 => exact ⟨_, rfl⟩
      | 1 => exact ⟨_, rfl⟩
      | n + 2 =>
        simp only [List.length_cons, List.length_nil] at hi
        omega)

/-- C4: if some per-program task of the batch fails with an infrastructure
error, the whole Programs.run call fails with a single aggregate error, so no
batch result (in particular no partial one) is returned; and the outcome does
not depend on the tasks that complete after the first failing one, which are
cancelled. -/
theorem batch_failfast {α E : Type} (run_request : Request α → Except E Dict)
    (submission_id : String) (environment : α) (ps : List Program) (σ : List Nat)
    (hperm : σ.Perm (List.range ps.length))
    (hfail : ∃ i, i < ps.length ∧ ∃ e,
      Programs.run_program run_request environment (ps.getD i Program.placeholder) =
        .error e) :
    (∃ e, Programs.run run_request submission_id environment ps σ =
      .error (.aggregate e)) ∧
    ∀ run_request2 : Request α → Except E Dict,
      (∀ i ∈ σ.take ((σ.takeWhile (fun j => isOkB (Programs.run_program run_request
          environment (ps.getD j Program.placeholder)))).length + 1),
        Programs.run_program run_request2 environment (ps.getD i Program.placeholder) =
          Programs.run_program run_request environment (ps.getD i Program.placeholder)) →
      Programs.run run_request2 submission_id environment ps σ =
        Programs.run run_request submission_id environment ps σ := by
  obtain ⟨i, hi, e, he⟩ := hfail
  have hiσ : i ∈ σ := (hperm.mem_iff).mpr (List.mem_range.mpr hi)
  constructor
  · obtain ⟨e2, he2⟩ := taskGroupRun_error
      (fun j => Programs.run_program run_request environment
        (ps.getD j Program.placeholder)) σ [] ⟨i, hiσ, e, he⟩
    refine ⟨e2, ?_⟩
    unfold Programs.run
    rw [he2]
  · intro run_request2 hagree
    unfold Programs.run
    rw [taskGroupRun_agree
      (fun j => Programs.run_program run_request environment
        (ps.getD j Program.placeholder))
      (fun j => Programs.run_program run_request2 environment
        (ps.getD j Program.placeholder)) σ [] hagree]

/-- C4 witness: a one-program batch whose backend raises makes the whole call
fail with an aggregate error. -/
theorem batch_failfast_witness :
    ∃ e, Programs.run (fun _ => (.error "boom" : Except String Dict)) "sub1" ()
      [⟨"a.py", [⟨"a.py", "1"⟩], []⟩] [0] = .error (.aggregate e) :=
  (batch_failfast (fun _ => (.error "boom" : Except String Dict)) "sub1" ()
    [⟨"a.py", [⟨"a.py", "1"⟩], []⟩] [0] (by decide)
    ⟨0, by decide, "boom", rfl⟩).1

/-- C7: in a successful batch, the per-program result at index i is the
program's original metadata bag merged with the dumped backend result, the
backend-derived fields winning on key collision: every non-colliding tracking
field keeps its original value and every backend field keeps the backend
value. -/
theorem batch_metadata_merge {α E : Type} (run_request : Request α → Except E Dict)
    (submission_id : String) (environment : α) (ps : List Program) (σ : List Nat)
    (hperm : σ.Perm (List.range ps.length))
    (hok : ∀ i, i < ps.length → ∃ d,
      Programs.run_program run_request environment (ps.getD i Program.placeholder) =
        .ok d) :
    ∃ res, Programs.run run_request submission_id environment ps σ = .ok res ∧
      ∀ i, i < ps.length → ∀ d,
        run_request (mkRequest (ps.getD i Program.placeholder) environment) = .ok d →
        res.result.getD i [] =
          mergeDict (ps.getD i Program.placeholder).extras d ∧
        (∀ k v, dictKeysNodup (ps.getD i Program.placeholder).extras →
          (k, v) ∈ (ps.getD i Program.placeholder).extras → k ∉ d.map Prod.fst →
          dictGet (res.result.getD i []) k = some v) ∧
        (∀ k v, dictKeysNodup d → (k, v) ∈ d →
          dictGet (res.result.getD i []) k = some v) := by
  have hok2 : ∀ i, i < ps.length →
      Programs.run_program run_request environment (ps.getD i Program.placeholder) =
        .ok (taskResult run_request environment ps i) := fun i hi =>
    taskResult_spec run_request environment ps i (hok i hi)
  refine ⟨_, Programs.run_all_ok run_request submission_id environment ps σ
    hperm hok2, ?_⟩
  intro i hi d hd
  have hTi : taskResult run_request environment ps i =
      mergeDict (ps.getD i Program.placeholder).extras d := by
    unfold taskResult Programs.run_program
    rw [hd]
  have hgetD : ((List.range ps.length).map
      (taskResult run_request environment ps)).getD i [] =
      mergeDict (ps.getD i Program.placeholder).extras d := by
    rw [getD_range_map (taskResult run_request environment ps) ps.length i hi [],
      hTi]
  refine ⟨hgetD, ?_, ?_⟩
  · intro k v hnd hm hknot
    rw [hgetD, mergeDict_get_of_notin k d hknot
      (ps.getD i Program.placeholder).extras,
      dictGet_of_mem (ps.getD i Program.placeholder).extras k v hnd hm]
  · intro k v hnd hm
    rw [hgetD, mergeDict_get_of_mem k v d hnd hm
      (ps.getD i Program.placeholder).extras]

/-- C7 witness: a program with tracking field testcase_id 7 and a backend dump
containing status, stdout and stderr gives a per-program result carrying
testcase_id 7 next to the backend-derived fields, the backend status winning
over a colliding tracking status. -/
theorem batch_metadata_merge_witness :
    ∃ res, Programs.run
        (fun _ => (.ok [("status", Val.s "OK"), ("stdout", Val.s "o"),
          ("stderr", Val.s "e")] : Except Unit Dict)) "sub2" ()
        [⟨"a.py", [⟨"a.py", "1"⟩],
          [("testcase_id", Val.i 7), ("status", Val.s "WA")]⟩] [0] = .ok res ∧
      ∀ i, i < ([⟨"a.py", [⟨"a.py", "1"⟩],
          [("testcase_id", Val.i 7), ("status", Val.s "WA")]⟩] : List Program).length →
        ∀ d, (fun _ => (.ok [("status", Val.s "OK"), ("stdout", Val.s "o"),
            ("stderr", Val.s "e")] : Except Unit Dict))
          (mkRequest (([⟨"a.py", [⟨"a.py", "1"⟩],
            [("testcase_id", Val.i 7), ("status", Val.s "WA")]⟩] : List Program).getD
            i Program.placeholder) ()) = .ok d →
        res.result.getD i [] =
          mergeDict (([⟨"a.py", [⟨"a.py", "1"⟩],
            [("testcase_id", Val.i 7), ("status", Val.s "WA")]⟩] : List Program).getD
            i Program.placeholder).extras d ∧
        (∀ k v, dictKeysNodup (([⟨"a.py", [⟨"a.py", "1"⟩],
            [("testcase_id", Val.i 7), ("status", Val.s "WA")]⟩] : List Program).getD
            i Program.placeholder).extras →
          (k, v) ∈ (([⟨"a.py", [⟨"a.py", "1"⟩],
            [("testcase_id", Val.i 7), ("status", Val.s "WA")]⟩] : List Program).getD
            i Program.placeholder).extras → k ∉ d.map Prod.fst →
          dictGet (res.result.getD i []) k = some v) ∧
        (∀ k v, dictKeysNodup d → (k, v) ∈ d →
          dictGet (res.result.getD i []) k = some v) :=
  batch_metadata_merge
    (fun _ => (.ok [("status", Val.s "OK"), ("stdout", Val.s "o"),
      ("stderr", Val.s "e")] : Except Unit Dict)) "sub2" ()
    [⟨"a.py", [⟨"a.py", "1"⟩],
      [("testcase_id", Val.i 7), ("status", Val.s "WA")]⟩] [0]
    (by decide)
    (by
      intro i hi
      match i with
      | 0 => exact ⟨_, rfl⟩
      | n + 1 =>
        simp only [List.length_cons, List.length_nil] at hi
        omega)

end UniconRunner
